import Mathlib

/-!
Shallow embedding of the output pipeline engine of `holo-cli`
(src/src/pipe.rs): the stage registry with unique-prefix resolution,
the builtin line filters, and the pipeline builder / teardown logic of
`PipeChain`.  Streams are modelled as `List Char`; machine-level I/O
errors cannot occur in the pure model, so the only failure sources kept
are the ones the claims talk about: OS spawn / pipe-creation failures
(modelled by an oracle `Nat → Bool` consulted once per fallible OS call,
in program order) and the out-of-bounds `args[0]` panic in the builtin
filters (modelled by an explicit `panicked` result).
-/

-- ===== Rust `BufRead::lines` semantics =====

/-- Strip one trailing carriage return, as Rust's `lines()` does after
removing the trailing newline. -/
def stripCR (l : List Char) : List Char :=
  if l.getLast? = some '\r' then l.dropLast else l

/-- Worker for `rustLines`: `acc` holds the current (reversed) line. -/
def rustLinesAux : List Char → List Char → List (List Char)
  | acc, [] => if acc = [] then [] else [acc.reverse]
  | acc, c :: rest =>
    if c = '\n' then stripCR acc.reverse :: rustLinesAux [] rest
    else rustLinesAux (c :: acc) rest

/-- Embeds Rust's `BufRead::lines` iterator: split the stream at `'\n'`,
strip the newline and an immediately preceding `'\r'` from each
terminated line, and yield a final unterminated fragment (unstripped)
when nonempty. -/
def rustLines (s : List Char) : List (List Char) :=
  rustLinesAux [] s

-- ===== builtin filters (src/src/pipe.rs, `filter_*`) =====

/-- Result of running a builtin filter in the pure model.  `panicked`
corresponds to the Rust out-of-bounds panic on `args[0]`; I/O errors
cannot occur on pure in-memory streams, so `Ok(())` with the written
bytes is the only other outcome. -/
inductive FilterResult where
  | ok (out : List Char)
  | panicked
deriving DecidableEq, Repr

/-- Rust's literal-substring `str::contains` on character lists:
`listIsInfixOf p l` holds when `p` occurs contiguously in `l`. -/
def listIsInfixOf (p : List Char) : List Char → Bool
  | [] => p.isEmpty
  | c :: rest => p.isPrefixOf (c :: rest) || listIsInfixOf p rest

/-- Rust's `str::starts_with` for string arguments. -/
def strStartsWith (s pre : String) : Bool :=
  pre.data.isPrefixOf s.data

/-- Embeds `filter_include`: `let pattern = &args[0]` (panics on an
empty `args`), then for each input line, re-emit it terminated with
`'\n'` when it contains the pattern. -/
def filter_include (args : List String) (input : List Char) : FilterResult :=
  match args with
  | [] => .panicked
  | pattern :: _ =>
    .ok ((((rustLines input).filter
        (fun l => listIsInfixOf pattern.data l)).map
        (fun l => l ++ ['\n'])).flatten)

/-- Embeds `filter_exclude`: same as `filter_include` with the test
negated. -/
def filter_exclude (args : List String) (input : List Char) : FilterResult :=
  match args with
  | [] => .panicked
  | pattern :: _ =>
    .ok ((((rustLines input).filter
        (fun l => !(listIsInfixOf pattern.data l))).map
        (fun l => l ++ ['\n'])).flatten)

/-- Embeds `filter_count`: write the decimal number of input lines
followed by `'\n'`.  The `args` parameter is ignored (`_args`). -/
def filter_count (_args : List String) (input : List Char) : FilterResult :=
  .ok ((Nat.repr (rustLines input).length).data ++ ['\n'])

/-- Embeds `filter_no_more`: `std::io::copy` from input to output. -/
def filter_no_more (_args : List String) (input : List Char) : FilterResult :=
  .ok input

-- ===== registry data types (src/src/pipe.rs) =====

/-- Tags naming the four builtin filter functions registered in
`default_registry` (Rust stores raw function pointers). -/
inductive BuiltinFn where
  | filter_include
  | filter_exclude
  | filter_count
  | filter_no_more
deriving DecidableEq, Repr

/-- Dispatch a `BuiltinFn` tag to the embedded filter function. -/
def runBuiltin : BuiltinFn → List String → List Char → FilterResult
  | .filter_include => filter_include
  | .filter_exclude => filter_exclude
  | .filter_count => filter_count
  | .filter_no_more => filter_no_more

/-- Embeds `enum PipeAction`. -/
inductive PipeAction where
  | External (binary : String) (fixed_args : List String)
  | Builtin (func : BuiltinFn)
deriving DecidableEq, Repr

/-- Embeds `struct PipeCommand`. -/
structure PipeCommand where
  name : String
  help : String
  args : List String
  action : PipeAction
deriving DecidableEq, Repr

/-- Embeds `struct ParsedPipe`. -/
structure ParsedPipe where
  command_idx : Nat
  args : List String
deriving DecidableEq, Repr

/-- Embeds `struct PipeRegistry`. -/
structure PipeRegistry where
  commands : List PipeCommand
deriving DecidableEq, Repr

/-- Embeds `enum PipeError`. -/
inductive PipeError where
  | NotFound (name : String)
  | Ambiguous (name : String) (candidates : List String)
  | WrongArgCount (command : String) (expected : Nat) (got : Nat)
  | NotAllowed
deriving DecidableEq, Repr

instance (priority := low) {ε α : Type} [DecidableEq ε] [DecidableEq α] :
    DecidableEq (Except ε α) := fun x y =>
  match x, y with
  | .ok a, .ok b =>
    if h : a = b then .isTrue (by rw [h])
    else .isFalse (by intro he; cases he; exact h rfl)
  | .error a, .error b =>
    if h : a = b then .isTrue (by rw [h])
    else .isFalse (by intro he; cases he; exact h rfl)
  | .ok _, .error _ => .isFalse (by intro he; cases he)
  | .error _, .ok _ => .isFalse (by intro he; cases he)

/-- Embeds `PipeRegistry::new`. -/
def PipeRegistry.new : PipeRegistry := ⟨[]⟩

/-- Embeds `PipeRegistry::builtin` (push a builtin command). -/
def PipeRegistry.addBuiltin (r : PipeRegistry) (name help : String)
    (args : List String) (func : BuiltinFn) : PipeRegistry :=
  ⟨r.commands ++ [⟨name, help, args, .Builtin func⟩]⟩

/-- Embeds `PipeRegistry::external` (push an external command). -/
def PipeRegistry.addExternal (r : PipeRegistry) (name help : String)
    (args : List String) (binary : String) (fixed_args : List String) :
    PipeRegistry :=
  ⟨r.commands ++ [⟨name, help, args, .External binary fixed_args⟩]⟩

/-- Embeds `PipeRegistry::build` (identity). -/
def PipeRegistry.buildReg (r : PipeRegistry) : PipeRegistry := r

/-- Index into `commands` as the Rust code does with
`self.commands[idx]`; every index produced by `find` is in range, so
the fallback is never reached on those paths. -/
def getCmd (r : PipeRegistry) (i : Nat) : PipeCommand :=
  (r.commands[i]?).getD ⟨"", "", [], .Builtin .filter_count⟩

/-- Embeds the `matches` list computed at the top of
`PipeRegistry::find`: indices (with their commands) of all registered
names having the typed name as a prefix. -/
def findMatches (r : PipeRegistry) (name : String) :
    List (Nat × PipeCommand) :=
  r.commands.enum.filter (fun p => strStartsWith p.2.name name)

/-- Embeds `PipeRegistry::find`: unique-prefix resolution with an exact
match winning among several prefix matches. -/
def PipeRegistry.find (r : PipeRegistry) (name : String) :
    Except PipeError Nat :=
  match findMatches r name with
  | [] => .error (.NotFound name)
  | [(i, _)] => .ok i
  | _ :: _ :: _ =>
    match (findMatches r name).find? (fun p => p.2.name == name) with
    | some (i, _) => .ok i
    | none =>
      .error (.Ambiguous name ((findMatches r name).map (fun p => p.2.name)))

/-- ASCII fragment of Rust's `char::is_whitespace` (the inputs handled
by the CLI are command lines; only ASCII whitespace is relevant). -/
def isRustWhitespace (c : Char) : Bool :=
  c == ' ' || c == '\t' || c == '\n' || c == '\r' || c == '\x0b' || c == '\x0c'

/-- Worker for `splitWhitespaceL`: `cur` holds the current (reversed)
word. -/
def splitWsAux : List Char → List Char → List (List Char)
  | cur, [] => if cur = [] then [] else [cur.reverse]
  | cur, c :: rest =>
    if isRustWhitespace c then
      if cur = [] then splitWsAux [] rest
      else cur.reverse :: splitWsAux [] rest
    else splitWsAux (c :: cur) rest

/-- Embeds Rust's `str::split_whitespace`: maximal nonempty runs of
non-whitespace characters. -/
def splitWhitespaceL (s : List Char) : List (List Char) :=
  splitWsAux [] s

/-- Embeds `PipeRegistry::parse_pipe`: first word resolves the command
(`""` when the segment has no words), the remaining words are the
arguments, and the argument count must equal the declared arity. -/
def PipeRegistry.parse_pipe (r : PipeRegistry) (segment : String) :
    Except PipeError ParsedPipe :=
  let ws := splitWhitespaceL segment.data
  let name : String := String.mk (ws.headD [])
  match r.find name with
  | .error e => .error e
  | .ok idx =>
    let args : List String := ws.tail.map String.mk
    let expected := (getCmd r idx).args.length
    if args.length ≠ expected then
      .error (.WrongArgCount (getCmd r idx).name expected args.length)
    else
      .ok ⟨idx, args⟩

/-- Embeds `default_registry`: the four registered builtins, in
registration order. -/
def default_registry : PipeRegistry :=
  ((((PipeRegistry.new.addBuiltin
      "include" "Filter lines matching pattern" ["pattern"]
      .filter_include).addBuiltin
      "exclude" "Remove lines matching pattern" ["pattern"]
      .filter_exclude).addBuiltin
      "count" "Count output lines" []
      .filter_count).addBuiltin
      "no-more" "Disable pager" []
      .filter_no_more).buildReg

-- ===== pipe chain (src/src/pipe.rs, `PipeChain`) =====

/-- Kind of a `PipeStage` entry: a background thread (builtin filter
task or external-stage relay thread) or a spawned child process. -/
inductive StageKind where
  | thread
  | process
deriving DecidableEq, Repr

/-- One entry of the `stages: Vec<PipeStage>` of `PipeChain`.  The
`origin` field is ghost bookkeeping absent from the Rust struct: it
records the index (0 = leftmost) of the stage request this unit was
constructed for, so that theorems can speak about pipeline order. -/
structure StageUnit where
  origin : Nat
  kind : StageKind
deriving DecidableEq, Repr

/-- Kind of the `ChainOutput` destination threaded through the
construction loop of `PipeChain::spawn`. -/
inductive ChainOutput where
  | PagerStdin
  | PipeWriter
  | Terminal
deriving DecidableEq, Repr

/-- State threaded through the construction loop of
`PipeChain::spawn`: the count of fallible OS calls made so far (the
oracle's cursor), the current output destination, and the `stages`
vector accumulated by `push`. -/
structure BuildState where
  ops : Nat
  sink : ChainOutput
  stages : List StageUnit
deriving DecidableEq, Repr

/-- A `build` failure (the `Err(String)` return of
`PipeChain::spawn`).  Besides the message (source cause strings are
omitted from the format string), ghost fields record what the error
path drops without any teardown: `leakedStages` is the `stages` vector
at the moment of failure, plus a just-spawned child not yet pushed
(dropping a `JoinHandle` detaches the thread and dropping a `Child`
neither kills nor waits, so these keep running); `leakedPager` records
whether a pager child had been spawned. -/
structure SpawnFail where
  msg : String
  leakedStages : List StageUnit
  leakedPager : Bool
deriving DecidableEq, Repr

/-- The `PipeChain` produced by a successful `spawn`: the entry writer
(present), the `stages` vector, and `pager: Option<Child>` modelled by
`pagerSome`.  `sinkIsPager` is ghost bookkeeping for the terminal sink
established at the start of `spawn` (pager stdin versus inherited
stdout). -/
structure PipeChain where
  hasWriter : Bool
  stages : List StageUnit
  pagerSome : Bool
  sinkIsPager : Bool
deriving DecidableEq, Repr

/-- Embeds the `has_no_more` test at the top of `PipeChain::spawn`. -/
def hasNoMore (r : PipeRegistry) (pipes : List ParsedPipe) : Bool :=
  pipes.any (fun p => (getCmd r p.command_idx).name == "no-more")

/-- Embeds the construction loop of `PipeChain::spawn` over
`pipes.iter().rev()`; the input list is `pipes.enum.reverse`, pairing
each request with its (ghost) left-to-right position.  `env n = true`
means the `n`-th fallible OS call (pipe creation or process spawn, in
program order) succeeds.  An `External` stage performs a child spawn
then a pipe creation and pushes a relay thread and the child; a
`Builtin` stage performs a pipe creation and pushes the filter thread;
`no-more` is skipped. -/
def buildLoop (r : PipeRegistry) (env : Nat → Bool) :
    List (Nat × ParsedPipe) → BuildState → Except SpawnFail BuildState
  | [], st => .ok st
  | (i, p) :: rest, st =>
    let cmd := getCmd r p.command_idx
    if cmd.name = "no-more" then
      buildLoop r env rest st
    else
      match cmd.action with
      | .External _ _ =>
        if env st.ops then
          if env (st.ops + 1) then
            buildLoop r env rest
              ⟨st.ops + 2, .PipeWriter,
                st.stages ++ [⟨i, .thread⟩, ⟨i, .process⟩]⟩
          else
            .error ⟨"failed to create pipe",
              st.stages ++ [⟨i, .process⟩], false⟩
        else
          .error ⟨"failed to spawn " ++ cmd.name, st.stages, false⟩
      | .Builtin _ =>
        if env st.ops then
          buildLoop r env rest
            ⟨st.ops + 1, .PipeWriter, st.stages ++ [⟨i, .thread⟩]⟩
        else
          .error ⟨"failed to create pipe", st.stages, false⟩

/-- Embeds `PipeChain::spawn`: decide paging, spawn the pager when
needed (the first fallible OS call), run the right-to-left
construction loop, and assemble the `PipeChain`.  On a loop failure
after a pager spawn, the pager is recorded as leaked (the source
returns the error without waiting on it). -/
def PipeChain.spawn (r : PipeRegistry) (pipes : List ParsedPipe)
    (use_pager : Bool) (env : Nat → Bool) : Except SpawnFail PipeChain :=
  let should_page := use_pager && !(hasNoMore r pipes)
  if should_page then
    if env 0 then
      match buildLoop r env pipes.enum.reverse ⟨1, .PagerStdin, []⟩ with
      | .ok st => .ok ⟨true, st.stages, true, true⟩
      | .error f => .error ⟨f.msg, f.leakedStages, true⟩
    else
      .error ⟨"failed to spawn pager", [], false⟩
  else
    match buildLoop r env pipes.enum.reverse ⟨0, .Terminal, []⟩ with
    | .ok st => .ok ⟨true, st.stages, false, false⟩
    | .error f => .error f

/-- Teardown events of `PipeChain::finish`, in execution order. -/
inductive TeardownEvent where
  | closeWriter
  | waitStage (u : StageUnit)
  | waitPager
deriving DecidableEq, Repr

/-- Embeds `PipeChain::finish`: drop the entry writer (EOF to the
leftmost stage), then join/wait the stages by draining the vector in
reverse push order, then wait on the pager when present. -/
def finishTrace (c : PipeChain) : List TeardownEvent :=
  .closeWriter ::
    ((c.stages.reverse.map TeardownEvent.waitStage) ++
      (if c.pagerSome then [.waitPager] else []))

/-- Stage units built for one request at (ghost) position `i`; used to
describe the `stages` vector produced by a successful `buildLoop`. -/
def unitsFor (r : PipeRegistry) (i : Nat) (p : ParsedPipe) :
    List StageUnit :=
  let cmd := getCmd r p.command_idx
  if cmd.name = "no-more" then []
  else
    match cmd.action with
    | .External _ _ => [⟨i, .thread⟩, ⟨i, .process⟩]
    | .Builtin _ => [⟨i, .thread⟩]

/-- Number of stage units one request contributes: none for `no-more`,
one thread for a builtin, a relay thread plus a child for an external
program. -/
def unitCount (r : PipeRegistry) (p : ParsedPipe) : Nat :=
  let cmd := getCmd r p.command_idx
  if cmd.name = "no-more" then 0
  else
    match cmd.action with
    | .External _ _ => 2
    | .Builtin _ => 1

-- ===== definitions used only to state theorems =====

/-- LF-terminated text built from a list of lines; used to state when
the byte stream written by a filter equals its input. -/
def unlinesLF (ls : List (List Char)) : List Char :=
  (ls.map (fun l => l ++ ['\n'])).flatten

/-- Modelled from the spec's words for `count`: the number of input
lines, where a line is text terminated by a line break and a final
unterminated fragment counts as one line. -/
def specLineCount (s : List Char) : Nat :=
  s.count '\n' +
    (match s.getLast? with
     | none => 0
     | some c => if c = '\n' then 0 else 1)

/-- The pipeline positions of the stage units waited on by a teardown
trace, in wait order. -/
def waitedOrigins (t : List TeardownEvent) : List Nat :=
  t.filterMap (fun e =>
    match e with
    | .waitStage u => some u.origin
    | _ => none)

-- ===== helper lemmas =====

theorem buildLoop_ok_stages (r : PipeRegistry) (env : Nat → Bool)
    (l : List (Nat × ParsedPipe)) :
    ∀ (st st' : BuildState), buildLoop r env l st = .ok st' →
      st'.stages =
        st.stages ++ (l.map (fun q => unitsFor r q.1 q.2)).flatten := by
  induction l with
  | nil =>
    intro st st' h
    simp only [buildLoop] at h
    cases h
    simp
  | cons hd rest ih =>
    obtain ⟨i, p⟩ := hd
    intro st st' h
    simp only [buildLoop] at h
    split at h
    · rename_i hnm
      have := ih st st' h
      simp [this, unitsFor, hnm]
    · rename_i hnm
      split at h
      · rename_i b fa hact
        split at h
        · split at h
          · have := ih _ st' h
            simp [this, unitsFor, hnm, hact]
          · exact Except.noConfusion h
        · exact Except.noConfusion h
      · rename_i f hact
        split at h
        · have := ih _ st' h
          simp [this, unitsFor, hnm, hact]
        · exact Except.noConfusion h

theorem mem_unitsFor_origin (r : PipeRegistry) (i : Nat) (p : ParsedPipe)
    (u : StageUnit) (hu : u ∈ unitsFor r i p) : u.origin = i := by
  by_cases hnm : (getCmd r p.command_idx).name = "no-more"
  · simp [unitsFor, hnm] at hu
  · cases hact : (getCmd r p.command_idx).action with
    | External b fa =>
      simp [unitsFor, hnm, hact] at hu
      rcases hu with rfl | rfl <;> rfl
    | Builtin f =>
      simp [unitsFor, hnm, hact] at hu
      subst hu
      rfl

theorem length_unitsFor (r : PipeRegistry) (i : Nat) (p : ParsedPipe) :
    (unitsFor r i p).length = unitCount r p := by
  by_cases hnm : (getCmd r p.command_idx).name = "no-more"
  · simp [unitsFor, unitCount, hnm]
  · cases hact : (getCmd r p.command_idx).action <;>
      simp [unitsFor, unitCount, hnm, hact]

theorem spawn_ok_stages (r : PipeRegistry) (pipes : List ParsedPipe)
    (use_pager : Bool) (env : Nat → Bool) (c : PipeChain)
    (h : PipeChain.spawn r pipes use_pager env = .ok c) :
    c.stages =
      ((pipes.enum.reverse.map (fun q => unitsFor r q.1 q.2))).flatten := by
  simp only [PipeChain.spawn] at h
  split at h
  · split at h
    · cases hb : buildLoop r env pipes.enum.reverse ⟨1, .PagerStdin, []⟩ with
      | ok st =>
        rw [hb] at h
        cases h
        simpa using buildLoop_ok_stages r env _ _ _ hb
      | error f =>
        rw [hb] at h
        exact Except.noConfusion h
    · exact Except.noConfusion h
  · cases hb : buildLoop r env pipes.enum.reverse ⟨0, .Terminal, []⟩ with
    | ok st =>
      rw [hb] at h
      cases h
      simpa using buildLoop_ok_stages r env _ _ _ hb
    | error f =>
      rw [hb] at h
      exact Except.noConfusion h

theorem spawn_ok_origins_antitone (r : PipeRegistry)
    (pipes : List ParsedPipe) (use_pager : Bool) (env : Nat → Bool)
    (c : PipeChain) (h : PipeChain.spawn r pipes use_pager env = .ok c) :
    List.Pairwise (fun a b : StageUnit => b.origin ≤ a.origin) c.stages := by
  rw [spawn_ok_stages r pipes use_pager env c h]
  rw [List.pairwise_flatten]
  constructor
  · intro l' hl'
    rcases List.mem_map.mp hl' with ⟨q, _, rfl⟩
    apply List.pairwise_of_forall_mem_list
    intro a ha b hb
    rw [mem_unitsFor_origin r q.1 q.2 a ha, mem_unitsFor_origin r q.1 q.2 b hb]
  · have h1 : List.Pairwise (· < ·) (List.range pipes.length) :=
      List.pairwise_lt_range _
    rw [← List.enum_map_fst pipes] at h1
    have h2 : List.Pairwise (fun a b : Nat × ParsedPipe => a.1 < b.1)
        pipes.enum := List.pairwise_map.mp h1
    have h3 : List.Pairwise (fun a b : Nat × ParsedPipe => b.1 < a.1)
        pipes.enum.reverse := List.pairwise_reverse.mpr h2
    rw [List.pairwise_map]
    refine h3.imp ?_
    intro q1 q2 hlt x hx y hy
    rw [mem_unitsFor_origin r q1.1 q1.2 x hx,
      mem_unitsFor_origin r q2.1 q2.2 y hy]
    exact Nat.le_of_lt hlt

theorem waitedOrigins_finishTrace (c : PipeChain) :
    waitedOrigins (finishTrace c) =
      c.stages.reverse.map StageUnit.origin := by
  simp only [waitedOrigins, finishTrace, List.filterMap_cons,
    List.filterMap_append, List.filterMap_map]
  have hm : List.filterMap (fun x : StageUnit => some x.origin) c.stages =
      List.map StageUnit.origin c.stages := by
    have := congrFun (List.filterMap_eq_map StageUnit.origin) c.stages
    simpa [Function.comp_def] using this
  cases c.pagerSome <;> simp [Function.comp_def, hm]

-- ===== claim theorems =====

/-- C1: the claim says a failed `PipeChain::spawn` tears down every
already-constructed Stage Unit before returning.  The code does not:
at this concrete input (a two-stage builtin pipeline `include "x" |
count` whose second pipe creation fails), `spawn` returns the error
while the already-spawned `count` filter thread is merely dropped —
never joined, closed or waited — as recorded by the nonempty
`leakedStages` field of the error. -/
theorem spawn_failure_leaks_constructed_stage :
    PipeChain.spawn default_registry [⟨0, ["x"]⟩, ⟨2, []⟩] false
        (fun n => n == 0) =
      .error ⟨"failed to create pipe", [⟨1, .thread⟩], false⟩ ∧
    ([⟨1, StageKind.thread⟩] : List StageUnit) ≠ [] := by decide

/-- C2 (counterexample): a pipeline consisting of the single parsed
request `no-more` builds successfully with zero stage units, so the
stage-unit count does not equal the request count. -/
theorem spawn_stage_count_counterexample :
    default_registry.parse_pipe "no-more" = .ok ⟨3, []⟩ ∧
    PipeChain.spawn default_registry [⟨3, []⟩] false (fun _ => true) =
      .ok ⟨true, [], false, false⟩ ∧
    (⟨true, [], false, false⟩ : PipeChain).stages.length ≠
      ([⟨3, []⟩] : List ParsedPipe).length := by decide

/-- C2 (amended): on every successful `PipeChain::spawn`, the number of
recorded stage units is the sum over the requests of their unit count —
0 for `no-more`, 1 for any other builtin, 2 (relay thread plus child)
for an external program.  In particular the unit count need not equal
the request count (a lone `no-more` request yields zero units). -/
theorem spawn_stage_count (r : PipeRegistry) (pipes : List ParsedPipe)
    (use_pager : Bool) (env : Nat → Bool) (c : PipeChain)
    (h : PipeChain.spawn r pipes use_pager env = .ok c) :
    c.stages.length = (pipes.map (unitCount r)).sum := by
  rw [spawn_ok_stages r pipes use_pager env c h, List.length_flatten,
    List.map_map]
  have hfun : (List.length ∘ fun q : Nat × ParsedPipe => unitsFor r q.1 q.2) =
      fun q : Nat × ParsedPipe => unitCount r q.2 :=
    funext fun q => length_unitsFor r q.1 q.2
  rw [hfun, List.map_reverse, (List.reverse_perm _).sum_eq]
  have h2 : pipes.enum.map (fun q : Nat × ParsedPipe => unitCount r q.2) =
      pipes.map (unitCount r) := by
    rw [show (fun q : Nat × ParsedPipe => unitCount r q.2) =
        (unitCount r) ∘ Prod.snd from rfl, ← List.map_map,
      List.enum_map_snd]
  rw [h2]

/-- C2 (witness): the amended count law evaluated on the concrete
pipeline `include "x" | count`. -/
theorem spawn_stage_count_witness :
    (⟨true, [⟨1, .thread⟩, ⟨0, .thread⟩], false, false⟩ :
        PipeChain).stages.length =
      (([⟨0, ["x"]⟩, ⟨2, []⟩] : List ParsedPipe).map
        (unitCount default_registry)).sum :=
  spawn_stage_count default_registry [⟨0, ["x"]⟩, ⟨2, []⟩] false
    (fun _ => true) ⟨true, [⟨1, .thread⟩, ⟨0, .thread⟩], false, false⟩
    (by decide)

/-- C4: teardown first closes the entry writer, then joins/waits the
stage units at non-decreasing pipeline positions (left to right,
leftmost first), and when a pager is present it is waited last. -/
theorem finish_teardown_order (r : PipeRegistry) (pipes : List ParsedPipe)
    (use_pager : Bool) (env : Nat → Bool) (c : PipeChain)
    (h : PipeChain.spawn r pipes use_pager env = .ok c) :
    (finishTrace c).head? = some .closeWriter ∧
    List.Pairwise (· ≤ ·) (waitedOrigins (finishTrace c)) ∧
    (c.pagerSome = true → (finishTrace c).getLast? = some .waitPager) := by
  refine ⟨rfl, ?_, ?_⟩
  · rw [waitedOrigins_finishTrace, List.pairwise_map, List.pairwise_reverse]
    exact spawn_ok_origins_antitone r pipes use_pager env c h
  · intro hp
    have hsh : finishTrace c =
        (TeardownEvent.closeWriter ::
          c.stages.reverse.map TeardownEvent.waitStage) ++ [.waitPager] := by
      simp [finishTrace, hp]
    rw [hsh, List.getLast?_concat]

/-- C4 (witness): the teardown-order law evaluated on the concrete
pipeline `include "x" | count` built with a pager. -/
theorem finish_teardown_order_witness :
    (finishTrace ⟨true, [⟨1, .thread⟩, ⟨0, .thread⟩], true, true⟩).head? =
      some .closeWriter ∧
    List.Pairwise (· ≤ ·)
      (waitedOrigins
        (finishTrace ⟨true, [⟨1, .thread⟩, ⟨0, .thread⟩], true, true⟩)) ∧
    ((⟨true, [⟨1, .thread⟩, ⟨0, .thread⟩], true, true⟩ :
        PipeChain).pagerSome = true →
      (finishTrace
        ⟨true, [⟨1, .thread⟩, ⟨0, .thread⟩], true, true⟩).getLast? =
          some .waitPager) :=
  finish_teardown_order default_registry [⟨0, ["x"]⟩, ⟨2, []⟩] true
    (fun _ => true) ⟨true, [⟨1, .thread⟩, ⟨0, .thread⟩], true, true⟩
    (by decide)

/-- C8: on every successful `PipeChain::spawn`, a pager was spawned
(and is the recorded terminal sink) if and only if `use_pager` holds
and no request names `no-more`; otherwise the terminal sink is the
inherited standard output, and the two are never both active
(`sinkIsPager` coincides with pager presence). -/
theorem pager_spawn_iff (r : PipeRegistry) (pipes : List ParsedPipe)
    (use_pager : Bool) (env : Nat → Bool) (c : PipeChain)
    (h : PipeChain.spawn r pipes use_pager env = .ok c) :
    c.pagerSome = (use_pager && !(hasNoMore r pipes)) ∧
    c.sinkIsPager = c.pagerSome := by
  simp only [PipeChain.spawn] at h
  split at h
  · rename_i hsp
    split at h
    · split at h
      · cases h
        exact ⟨hsp.symm, rfl⟩
      · exact Except.noConfusion h
    · exact Except.noConfusion h
  · rename_i hsp
    split at h
    · cases h
      refine ⟨?_, rfl⟩
      simp only [Bool.not_eq_true] at hsp
      exact hsp.symm
    · exact Except.noConfusion h

/-- C8 (witness): the pager law evaluated on the single-request
pipeline `no-more` with `use_pager = true`: no pager is spawned and the
sink is the inherited terminal. -/
theorem pager_spawn_iff_witness :
    (⟨true, [], false, false⟩ : PipeChain).pagerSome =
      (true && !(hasNoMore default_registry [⟨3, []⟩])) ∧
    (⟨true, [], false, false⟩ : PipeChain).sinkIsPager =
      (⟨true, [], false, false⟩ : PipeChain).pagerSome :=
  pager_spawn_iff default_registry [⟨3, []⟩] true (fun _ => true)
    ⟨true, [], false, false⟩ (by decide)

/-- C3 (counterexample): no builtin stage named `begin` exists in the
default registry. -/
theorem no_begin_stage_counterexample :
    ¬ ("begin" ∈ default_registry.commands.map PipeCommand.name) := by
  decide

/-- C3 (amended): the default registry registers exactly the builtins
`include`, `exclude`, `count` and `no-more`; there is no stage named
`begin`, and resolving `begin` fails with a not-found error. -/
theorem default_registry_has_no_begin :
    default_registry.commands.map PipeCommand.name =
      ["include", "exclude", "count", "no-more"] ∧
    ("begin" ∉ default_registry.commands.map PipeCommand.name) ∧
    default_registry.find "begin" = .error (.NotFound "begin") := by
  decide

theorem mem_findMatches_iff (r : PipeRegistry) (name : String)
    (i : Nat) (c : PipeCommand) :
    (i, c) ∈ findMatches r name ↔
      r.commands[i]? = some c ∧ strStartsWith c.name name = true := by
  simp [findMatches, List.mem_filter, List.mk_mem_enum_iff_getElem?]

/-- C5: `PipeRegistry::find` resolves by unique prefix — an exact name
wins even when other names share it as a prefix; a unique prefix match
resolves to that command; several prefix matches with no exact name
fail with an ambiguity error carrying all candidate names; no prefix
match fails with not-found. -/
theorem find_prefix_resolution (r : PipeRegistry) (name : String) :
    ((∃ (i : Nat) (c : PipeCommand),
        r.commands[i]? = some c ∧ c.name = name) →
      ∃ (i : Nat) (c : PipeCommand),
        r.find name = .ok i ∧ r.commands[i]? = some c ∧ c.name = name) ∧
    (∀ (i : Nat) (c : PipeCommand),
      findMatches r name = [(i, c)] → r.find name = .ok i) ∧
    (2 ≤ (findMatches r name).length →
      (∀ q ∈ findMatches r name, q.2.name ≠ name) →
      r.find name = .error (.Ambiguous name
        ((findMatches r name).map (fun q => q.2.name)))) ∧
    (findMatches r name = [] → r.find name = .error (.NotFound name)) := by
  refine ⟨?_, ?_, ?_, ?_⟩
  · rintro ⟨i, c, hget, hname⟩
    have hpre : strStartsWith c.name name = true := by
      subst hname
      simp [strStartsWith]
    have hmem : (i, c) ∈ findMatches r name :=
      (mem_findMatches_iff r name i c).mpr ⟨hget, hpre⟩
    cases hm : findMatches r name with
    | nil =>
      rw [hm] at hmem
      cases hmem
    | cons a t =>
      cases t with
      | nil =>
        rw [hm] at hmem
        have ha : a = (i, c) := by
          cases hmem with
          | head => rfl
          | tail _ h2 => cases h2
        subst ha
        exact ⟨i, c, by simp [PipeRegistry.find, hm], hget, hname⟩
      | cons b t2 =>
        have hmem2 : (i, c) ∈ a :: b :: t2 := hm ▸ hmem
        have hsome :
            ((a :: b :: t2).find? (fun q => q.2.name == name)).isSome := by
          rw [List.find?_isSome]
          exact ⟨(i, c), hmem2, by simp [hname]⟩
        obtain ⟨q, hq⟩ := Option.isSome_iff_exists.mp hsome
        obtain ⟨j, d⟩ := q
        have hdn : d.name = name := by simpa using List.find?_some hq
        have hmemq : (j, d) ∈ findMatches r name := by
          rw [hm]
          exact List.mem_of_find?_eq_some hq
        have hdget := ((mem_findMatches_iff r name j d).mp hmemq).1
        exact ⟨j, d, by simp [PipeRegistry.find, hm, hq], hdget, hdn⟩
  · intro i c hm
    simp [PipeRegistry.find, hm]
  · intro hlen hnone
    cases hm : findMatches r name with
    | nil =>
      rw [hm] at hlen
      simp at hlen
    | cons a t =>
      cases t with
      | nil =>
        rw [hm] at hlen
        simp at hlen
      | cons b t2 =>
        have hq : (a :: b :: t2).find? (fun q => q.2.name == name) = none := by
          rw [List.find?_eq_none]
          intro x hx
          have hxne : x.2.name ≠ name := hnone x (by rw [hm]; exact hx)
          simpa using hxne
        simp [PipeRegistry.find, hm, hq]
  · intro hm
    simp [PipeRegistry.find, hm]

/-- C5 (witness): resolving the empty prefix against the default
registry, where all four names match and none is exact, yields the
ambiguity error listing every candidate. -/
theorem find_prefix_resolution_witness :
    default_registry.find "" = .error (.Ambiguous ""
      ((findMatches default_registry "").map (fun q => q.2.name))) :=
  (find_prefix_resolution default_registry "").2.2.1 (by decide) (by decide)

theorem find_ok_getElem (r : PipeRegistry) (name : String) (i : Nat)
    (h : r.find name = .ok i) : ∃ c, r.commands[i]? = some c := by
  cases hm : findMatches r name with
  | nil => simp [PipeRegistry.find, hm] at h
  | cons a t =>
    cases t with
    | nil =>
      obtain ⟨i1, c⟩ := a
      simp [PipeRegistry.find, hm] at h
      subst h
      exact ⟨c, ((mem_findMatches_iff r name i1 c).mp
        (by rw [hm]; exact List.mem_singleton_self _)).1⟩
    | cons b t2 =>
      cases hq : (a :: b :: t2).find? (fun q => q.2.name == name) with
      | none => simp [PipeRegistry.find, hm, hq] at h
      | some q =>
        obtain ⟨j, d⟩ := q
        simp [PipeRegistry.find, hm, hq] at h
        subst h
        exact ⟨d, ((mem_findMatches_iff r name j d).mp
          (by rw [hm]; exact List.mem_of_find?_eq_some hq)).1⟩

theorem parse_pipe_ok_shape (r : PipeRegistry) (segment : String)
    (p : ParsedPipe) (h : r.parse_pipe segment = .ok p) :
    r.find (String.mk ((splitWhitespaceL segment.data).headD [])) =
      .ok p.command_idx ∧
    p.args.length = (getCmd r p.command_idx).args.length := by
  simp only [PipeRegistry.parse_pipe] at h
  cases hf : r.find (String.mk ((splitWhitespaceL segment.data).headD []))
    with
  | error e =>
    rw [hf] at h
    simp at h
  | ok idx =>
    rw [hf] at h
    replace h :
        (if ((splitWhitespaceL segment.data).tail.map String.mk).length ≠
            (getCmd r idx).args.length then
          (Except.error (PipeError.WrongArgCount (getCmd r idx).name
            (getCmd r idx).args.length
            ((splitWhitespaceL segment.data).tail.map String.mk).length) :
            Except PipeError ParsedPipe)
        else
          .ok ⟨idx, (splitWhitespaceL segment.data).tail.map String.mk⟩) =
          .ok p := h
    by_cases hcond :
        ((splitWhitespaceL segment.data).tail.map String.mk).length ≠
          (getCmd r idx).args.length
    · rw [if_pos hcond] at h
      exact Except.noConfusion h
    · rw [if_neg hcond] at h
      cases h
      exact ⟨rfl, not_ne_iff.mp hcond⟩

/-- C9: whenever a pipe segment resolves to a command but the number of
argument words differs from the declared arity, `parse_pipe` fails with
a wrong-argument-count error carrying the declared (expected) and
supplied (got) counts.  In the embedding `parse_pipe` is a pure
function over the registry and the segment, so — like resolution — it
has no side effects and constructs no process or task. -/
theorem parse_pipe_wrong_arg_count (r : PipeRegistry) (segment : String)
    (idx : Nat)
    (hfind : r.find (String.mk
      ((splitWhitespaceL segment.data).headD [])) = .ok idx)
    (hlen : ((splitWhitespaceL segment.data).tail).length ≠
      (getCmd r idx).args.length) :
    r.parse_pipe segment = .error (.WrongArgCount (getCmd r idx).name
      (getCmd r idx).args.length
      ((splitWhitespaceL segment.data).tail).length) := by
  simp only [PipeRegistry.parse_pipe, hfind]
  have hl : ((splitWhitespaceL segment.data).tail.map String.mk).length =
      ((splitWhitespaceL segment.data).tail).length :=
    List.length_map _ _
  rw [if_pos (by rw [hl]; exact hlen), hl]

/-- C9 (witness): parsing the segment `include` (one word, no
arguments) against the default registry fails with expected 1, got
0. -/
theorem parse_pipe_wrong_arg_count_witness :
    default_registry.parse_pipe "include" =
      .error (.WrongArgCount "include" 1 0) :=
  parse_pipe_wrong_arg_count default_registry "include" 0 (by decide)
    (by decide)

/-- C10: `filter_include` and `filter_exclude` read `args[0]`
unconditionally, so they panic exactly when the argument list is empty;
and every `ParsedPipe` produced by `parse_pipe` on the default registry
whose resolved command is one of those two builtins carries exactly one
argument (the declared `pattern`), so calls reaching the filters
through the parser never panic. -/
theorem builtin_filters_args_safety (args : List String)
    (input : List Char) (segment : String) (p : ParsedPipe)
    (b : BuiltinFn)
    (hparse : default_registry.parse_pipe segment = .ok p)
    (hact : (getCmd default_registry p.command_idx).action = .Builtin b)
    (hb : b = .filter_include ∨ b = .filter_exclude) :
    (filter_include args input = .panicked ↔ args = []) ∧
    (filter_exclude args input = .panicked ↔ args = []) ∧
    p.args.length = 1 := by
  obtain ⟨hfind, harity⟩ :=
    parse_pipe_ok_shape default_registry segment p hparse
  refine ⟨?_, ?_, ?_⟩
  · cases args with
    | nil => simp [filter_include]
    | cons a t => simp [filter_include]
  · cases args with
    | nil => simp [filter_exclude]
    | cons a t => simp [filter_exclude]
  · obtain ⟨c, hc⟩ := find_ok_getElem default_registry _ p.command_idx hfind
    have hlt : p.command_idx < default_registry.commands.length := by
      by_contra hge
      rw [List.getElem?_eq_none (Nat.le_of_not_lt hge)] at hc
      exact Option.noConfusion hc
    have h4 : p.command_idx < 4 := by
      simpa [default_registry, PipeRegistry.new, PipeRegistry.addBuiltin,
        PipeRegistry.buildReg] using hlt
    set n := p.command_idx with hn
    interval_cases n
    · exact harity.trans (by decide)
    · exact harity.trans (by decide)
    · exfalso
      have hcb : BuiltinFn.filter_count = b := by
        injection (show PipeAction.Builtin BuiltinFn.filter_count =
          PipeAction.Builtin b from hact)
      rcases hb with rfl | rfl <;> exact BuiltinFn.noConfusion hcb
    · exfalso
      have hcb : BuiltinFn.filter_no_more = b := by
        injection (show PipeAction.Builtin BuiltinFn.filter_no_more =
          PipeAction.Builtin b from hact)
      rcases hb with rfl | rfl <;> exact BuiltinFn.noConfusion hcb

/-- C10 (witness): the safety law evaluated at the segment
`include x`, whose parse result carries the single argument `x`. -/
theorem builtin_filters_args_safety_witness :
    (filter_include ["x"] [] = .panicked ↔ (["x"] : List String) = []) ∧
    (filter_exclude ["x"] [] = .panicked ↔ (["x"] : List String) = []) ∧
    (⟨0, ["x"]⟩ : ParsedPipe).args.length = 1 :=
  builtin_filters_args_safety ["x"] [] "include x" ⟨0, ["x"]⟩
    .filter_include (by decide) (by decide) (Or.inl rfl)

theorem stripCR_eq_self (l : List Char) (h : l.getLast? ≠ some '\r') :
    stripCR l = l := by
  simp [stripCR, h]

theorem rustLinesAux_line (l : List Char) :
    ∀ (acc rest : List Char), '\n' ∉ l →
      rustLinesAux acc (l ++ '\n' :: rest) =
        stripCR (acc.reverse ++ l) :: rustLinesAux [] rest := by
  induction l with
  | nil =>
    intro acc rest _
    simp [rustLinesAux]
  | cons c l2 ih =>
    intro acc rest h
    have h1 : ¬(c = '\n') := fun he =>
      h (List.mem_cons.mpr (Or.inl he.symm))
    have h2 : '\n' ∉ l2 := fun hm => h (List.mem_cons_of_mem _ hm)
    simp only [List.cons_append, rustLinesAux, if_neg h1, List.append_eq]
    rw [ih (c :: acc) rest h2]
    simp [List.append_assoc]

theorem rustLines_unlinesLF (ls : List (List Char))
    (h : ∀ l ∈ ls, '\n' ∉ l ∧ l.getLast? ≠ some '\r') :
    rustLines (unlinesLF ls) = ls := by
  induction ls with
  | nil => rfl
  | cons l ls2 ih =>
    have h1 := h l (List.mem_cons_self _ _)
    have h2 : ∀ x ∈ ls2, '\n' ∉ x ∧ x.getLast? ≠ some '\r' :=
      fun x hx => h x (List.mem_cons_of_mem _ hx)
    have hsh : unlinesLF (l :: ls2) = l ++ '\n' :: unlinesLF ls2 := by
      simp [unlinesLF]
    have hihx := ih h2
    simp only [rustLines] at hihx ⊢
    rw [hsh, rustLinesAux_line l [] (unlinesLF ls2) h1.1]
    simp only [List.reverse_nil, List.nil_append]
    rw [stripCR_eq_self l h1.2, hihx]

/-- C6 (counterexample): on the unterminated input `a`, the builtin
include filter with the empty pattern writes `a` followed by a line
feed, so the output bytes differ from the input bytes. -/
theorem include_empty_pattern_counterexample :
    filter_include [""] ['a'] = .ok ['a', '\n'] ∧
    (['a', '\n'] : List Char) ≠ ['a'] := by decide

/-- C6 (amended): `include ""` passes every line unchanged — its output
is exactly the input's lines, each re-terminated with a line feed.  In
particular, on any input made of LF-terminated lines (none containing a
line feed or ending in a carriage return) the output bytes equal the
input bytes; they differ when the input ends in an unterminated
fragment, which is re-terminated. -/
theorem include_empty_pattern_identity (ls : List (List Char))
    (h : ∀ l ∈ ls, '\n' ∉ l ∧ l.getLast? ≠ some '\r') :
    filter_include [""] (unlinesLF ls) = .ok (unlinesLF ls) := by
  have hempty : ∀ l : List Char,
      listIsInfixOf ("" : String).data l = true := by
    intro l
    cases l with
    | nil => rfl
    | cons c t => rfl
  simp only [filter_include]
  rw [rustLines_unlinesLF ls h,
    List.filter_eq_self.mpr (fun a _ => hempty a)]
  rfl

/-- C6 (witness): the amended identity evaluated on the two-line
LF-terminated input `a` / `bc`. -/
theorem include_empty_pattern_identity_witness :
    filter_include [""] (unlinesLF [['a'], ['b', 'c']]) =
      .ok (unlinesLF [['a'], ['b', 'c']]) :=
  include_empty_pattern_identity [['a'], ['b', 'c']] (by decide)

theorem specLineCount_nl_cons (pre rest : List Char) (hpre : '\n' ∉ pre) :
    specLineCount (pre ++ '\n' :: rest) = 1 + specLineCount rest := by
  have hc0 : pre.count '\n' = 0 := List.count_eq_zero.mpr hpre
  have hlast : (pre ++ '\n' :: rest).getLast? = ('\n' :: rest).getLast? :=
    List.getLast?_append_of_ne_nil _ (by simp)
  cases rest with
  | nil =>
    simp [specLineCount, List.count_append, hc0, hlast]
  | cons d t =>
    simp only [specLineCount, List.count_append, hc0, hlast,
      List.getLast?_cons_cons, List.count_cons_self]
    omega

theorem rustLinesAux_length (s : List Char) :
    ∀ acc : List Char, '\n' ∉ acc →
      (rustLinesAux acc s).length = specLineCount (acc.reverse ++ s) := by
  induction s with
  | nil =>
    intro acc hacc
    simp only [rustLinesAux, List.append_nil]
    have hc0 : acc.reverse.count '\n' = 0 :=
      List.count_eq_zero.mpr (fun hm => hacc (List.mem_reverse.mp hm))
    cases acc with
    | nil => simp [specLineCount]
    | cons a t =>
      have hne : (a :: t : List Char) ≠ [] := by simp
      rw [if_neg hne]
      have ha : a ≠ '\n' := fun he =>
        hacc (List.mem_cons.mpr (Or.inl he.symm))
      simp only [specLineCount, hc0, List.getLast?_reverse]
      simp [ha]
  | cons c rest ih =>
    intro acc hacc
    by_cases hc : c = '\n'
    · subst hc
      simp only [rustLinesAux, eq_self_iff_true, if_true, List.length_cons]
      rw [ih [] (by simp)]
      rw [specLineCount_nl_cons acc.reverse rest
        (fun hm => hacc (List.mem_reverse.mp hm))]
      simp only [List.reverse_nil, List.nil_append]
      omega
    · simp only [rustLinesAux, if_neg hc]
      have hacc2 : '\n' ∉ c :: acc := by
        intro hm
        rcases List.mem_cons.mp hm with he | hm2
        · exact hc he.symm
        · exact hacc hm2
      rw [ih (c :: acc) hacc2]
      simp [List.append_assoc]

theorem length_rustLines (s : List Char) :
    (rustLines s).length = specLineCount s := by
  have h := rustLinesAux_length s [] (by simp)
  simpa [rustLines] using h

/-- C7: on every input (and any argument list), the builtin count
filter emits exactly one line: the decimal representation of the
number of input lines followed by a line feed, where the line count is
the spec's — one per line break plus one for a nonempty final
unterminated fragment (so empty input yields `0` and `a\nb` yields
`2`). -/
theorem count_emits_line_count (args : List String) (input : List Char) :
    filter_count args input =
      .ok ((Nat.repr (specLineCount input)).data ++ ['\n']) := by
  simp [filter_count, length_rustLines]
